import Mathlib

/-!
# Verification of the draft variable-resolution and template-materialization engine

This file is a shallow embedding, in Lean 4, of the core of the `draft`
scaffolding CLI: the variable resolver (`pkg/prompts`), the template
materializer (`pkg/osutil`), the workflow flag collection (`pkg/workflows`
and the `generate-workflow` command), and the field validators
(`pkg/validations`).  Go maps (`map[string]string`, `map[string][]byte`)
are modelled as association lists with overwrite-on-insert semantics;
Go strings that are only compared are modelled as `String`, file contents
and template text (which are traversed character by character by
`strings.ReplaceAll`) as `List Char`; fallible Go functions returning
`(T, error)` are modelled as `Except String T` carrying the `fmt.Errorf`
message.  Interactive prompting (`promptui`) and the Azure CLI shell-outs
are external collaborators; they are modelled as explicit oracle
parameters so that theorems quantify over every possible answer.
-/

namespace Draft

/-! ## Association-list model of Go maps

A Go `map` is modelled as an association list: `lookupA` finds the binding
of a key, `setA` overwrites an existing binding in place or appends a new
one, so each key occurs at most once when the map is built from `setA`
alone.  `getS` mirrors reading a `map[string]string`: a missing key reads
as the zero value `""`.  Iteration order of a Go map is unspecified; where
the source ranges over a map, the embedding fixes the list order and the
theorem hypotheses make the result order-independent.
-/

def lookupA {κ α : Type} [DecidableEq κ] : List (κ × α) → κ → Option α
  | [], _ => none
  | (k, v) :: rest, key => if k = key then some v else lookupA rest key

def setA {κ α : Type} [DecidableEq κ] : List (κ × α) → κ → α → List (κ × α)
  | [], key, val => [(key, val)]
  | (k, v) :: rest, key, val =>
      if k = key then (key, val) :: rest else (k, v) :: setA rest key val

def containsA {κ α : Type} [DecidableEq κ] (m : List (κ × α)) (k : κ) : Bool :=
  (lookupA m k).isSome

/-- Reading a `map[string]string` in Go: a missing key yields `""`. -/
def getS (m : List (String × String)) (k : String) : String :=
  (lookupA m k).getD ""

theorem lookupA_setA_self {κ α : Type} [DecidableEq κ] (m : List (κ × α)) (k : κ) (v : α) :
    lookupA (setA m k v) k = some v := by
  induction m with
  | nil => simp [setA, lookupA]
  | cons kv rest ih =>
      obtain ⟨k', v'⟩ := kv
      by_cases h : k' = k
      · subst h; simp [setA, lookupA]
      · simp [setA, lookupA, h, ih]

theorem lookupA_setA_ne {κ α : Type} [DecidableEq κ] (m : List (κ × α)) (k k' : κ) (v : α)
    (h : k ≠ k') : lookupA (setA m k v) k' = lookupA m k' := by
  induction m with
  | nil => simp [setA, lookupA, h]
  | cons kv rest ih =>
      obtain ⟨k₀, v₀⟩ := kv
      by_cases h₀ : k₀ = k
      · subst h₀; simp [setA, lookupA, h]
      · simp [setA, lookupA, h₀, ih]

theorem containsA_setA {κ α : Type} [DecidableEq κ] (m : List (κ × α)) (k k' : κ) (v : α) :
    containsA (setA m k v) k' = (containsA m k' || decide (k = k')) := by
  by_cases h : k = k'
  · subst h
    simp [containsA, lookupA_setA_self]
  · simp [containsA, lookupA_setA_ne m k k' v h, h]

theorem containsA_of_getS_ne (m : List (String × String)) (k : String)
    (h : getS m k ≠ "") : containsA m k = true := by
  unfold getS at h
  unfold containsA
  cases hl : lookupA m k with
  | none => rw [hl] at h; simp at h
  | some v => simp

/-! ## Data model of the resolver (`pkg/config` as used by `pkg/prompts`)

The `config` package itself is not part of the sources; its data types are
pure data and are reconstructed here exactly from their uses in
`pkg/prompts` and `pkg/validations`, following the spec's Variable Model
(§3): `BuilderVar` carries a name, prompt description, value kind and
validation-rule identifier; `BuilderVarDefault` carries a literal default
value, an optional reference to another variable's resolved value and the
prompt-suppression flag.  `NameOverrides` is modelled from the spec:
NameOverrideRule, "maps an original filename to a prefix to prepend in the
destination tree"; `GetNameOverride` returns `""` when no rule matches
(absence means no renaming).
-/

structure BuilderVar where
  Name : String
  Description : String
  VarType : String
  ValidateType : String
deriving Repr, DecidableEq

structure BuilderVarDefault where
  Name : String
  Value : String
  ReferenceVar : String
  IsPromptDisabled : Bool
deriving Repr, DecidableEq

structure DraftConfig where
  Variables : List BuilderVar
  VariableDefaults : List BuilderVarDefault
  NameOverrides : List (String × String)
deriving Repr, DecidableEq

def DraftConfig.GetNameOverride (config : DraftConfig) (fileName : String) : String :=
  getS config.NameOverrides fileName

/-! ## The resolver (`pkg/prompts`, `RunPromptsFromConfigWithSkipsIO`)

Interactive prompting is modelled by a `PromptOracle`: `boolAnswer` is the
outcome of `promptui.Select` in `RunBoolPrompt`, `stringAnswer` the raw
outcome of `promptui.Prompt.Run` in `RunDefaultableStringPrompt` (given the
variable and the computed default shown in the label).  An oracle may
return any string or any error, which covers every behaviour of the real
terminal interaction.
-/

structure PromptOracle where
  boolAnswer : BuilderVar → Except String String
  stringAnswer : BuilderVar → String → Except String String

/-- One iteration of the loop body of `GetVariableDefaultValue`: on a
matching entry the default becomes the entry's literal `Value`, replaced by
the referenced variable's currently resolved value when `ReferenceVar` is
set and that value is non-empty; a non-matching entry leaves the default
unchanged. -/
def chaseStep (variableName : String) (inputs : List (String × String))
    (defaultValue : String) (variableDefault : BuilderVarDefault) : String :=
  if variableDefault.Name = variableName then
    if variableDefault.ReferenceVar ≠ "" ∧ getS inputs variableDefault.ReferenceVar ≠ "" then
      getS inputs variableDefault.ReferenceVar
    else
      variableDefault.Value
  else defaultValue

/-- `GetVariableDefaultValue` from `pkg/prompts`: scans `variableDefaults`
with the loop body `chaseStep`, starting from `""`. -/
def GetVariableDefaultValue (variableName : String)
    (variableDefaults : List BuilderVarDefault) (inputs : List (String × String)) : String :=
  variableDefaults.foldl (chaseStep variableName inputs) ""

/-- `GetIsPromptDisabled` from `pkg/prompts`: the first entry matching the
name decides; absence means `false`. -/
def GetIsPromptDisabled (variableName : String)
    (variableDefaults : List BuilderVarDefault) : Bool :=
  match variableDefaults with
  | [] => false
  | variableDefault :: rest =>
      if variableDefault.Name = variableName then variableDefault.IsPromptDisabled
      else GetIsPromptDisabled variableName rest

def RunBoolPrompt (customPrompt : BuilderVar) (o : PromptOracle) : Except String String :=
  o.boolAnswer customPrompt

/-- `RunDefaultableStringPrompt`: when a non-empty default exists the label
shows it and a blank answer falls back to the default (with a non-empty
default the validator is `AllowAllStringValidator`, so a blank raw answer
is possible); the error of `prompt.Run` is propagated. -/
def RunDefaultableStringPrompt (customPrompt : BuilderVar) (defaultValue : String)
    (o : PromptOracle) : Except String String :=
  match o.stringAnswer customPrompt defaultValue with
  | Except.error e => Except.error e
  | Except.ok input =>
      Except.ok (if input = "" ∧ defaultValue ≠ "" then defaultValue else input)

def noDefaultMsg (variableName : String) : String :=
  "IsPromptDisabled is true for " ++ variableName ++ " but no default value was found"

/-- The main loop of `RunPromptsFromConfigWithSkipsIO` over
`config.Variables`, threading the `inputs` map.  The second component of
the result records, on every path, the names for which a prompt was
actually issued (an oracle call made). -/
def runPromptsLoop (config : DraftConfig) (varsToSkip : List String) (o : PromptOracle) :
    List BuilderVar → List (String × String) → List String →
    Except String (List (String × String)) × List String
  | [], inputs, promptLog => (Except.ok inputs, promptLog)
  | customPrompt :: rest, inputs, promptLog =>
      if varsToSkip.contains customPrompt.Name then
        runPromptsLoop config varsToSkip o rest inputs promptLog
      else if GetIsPromptDisabled customPrompt.Name config.VariableDefaults then
        if GetVariableDefaultValue customPrompt.Name config.VariableDefaults inputs = "" then
          (Except.error (noDefaultMsg customPrompt.Name), promptLog)
        else
          runPromptsLoop config varsToSkip o rest
            (setA inputs customPrompt.Name
              (GetVariableDefaultValue customPrompt.Name config.VariableDefaults inputs))
            promptLog
      else if customPrompt.VarType = "bool" then
        match RunBoolPrompt customPrompt o with
        | Except.error e => (Except.error e, promptLog ++ [customPrompt.Name])
        | Except.ok input =>
            runPromptsLoop config varsToSkip o rest (setA inputs customPrompt.Name input)
              (promptLog ++ [customPrompt.Name])
      else
        match RunDefaultableStringPrompt customPrompt
            (GetVariableDefaultValue customPrompt.Name config.VariableDefaults inputs) o with
        | Except.error e => (Except.error e, promptLog ++ [customPrompt.Name])
        | Except.ok stringInput =>
            runPromptsLoop config varsToSkip o rest (setA inputs customPrompt.Name stringInput)
              (promptLog ++ [customPrompt.Name])

/-- The final pass of `RunPromptsFromConfigWithSkipsIO`: substitute the
default value for variables where the map still reads as empty.  Note the
Go assignment `inputs[variableDefault.Name] = variableDefault.Value`
inserts the key even when `Value` is `""`. -/
def substituteDefaults (variableDefaults : List BuilderVarDefault)
    (inputs : List (String × String)) : List (String × String) :=
  variableDefaults.foldl
    (fun m variableDefault =>
      if getS m variableDefault.Name = "" then setA m variableDefault.Name variableDefault.Value
      else m)
    inputs

def RunPromptsFromConfigWithSkipsIO (config : DraftConfig) (varsToSkip : List String)
    (o : PromptOracle) : Except String (List (String × String)) :=
  match runPromptsLoop config varsToSkip o config.Variables [] [] with
  | (Except.error e, _) => Except.error e
  | (Except.ok inputs, _) => Except.ok (substituteDefaults config.VariableDefaults inputs)

/-- The names for which `RunPromptsFromConfigWithSkipsIO` issues a prompt
(consults the terminal), in order. -/
def promptedVariables (config : DraftConfig) (varsToSkip : List String)
    (o : PromptOracle) : List String :=
  (runPromptsLoop config varsToSkip o config.Variables [] []).2

/-- An oracle that never fails: every prompt interaction returns an
answer. -/
def OracleTotal (o : PromptOracle) : Prop :=
  (∀ v, ∃ s, o.boolAnswer v = Except.ok s) ∧
  (∀ v d, ∃ s, o.stringAnswer v d = Except.ok s)

/-! ## Workflow flag collection (`pkg/workflows` and the
`generate-workflow` command)

`WorkflowConfig` is the struct whose fields are bound to the dedicated
command-line flags; `SetFlagValuesToMap` collects its non-empty fields
into the flag values map.  `applyFlagVariables` is the loop shared by
`generateWorkflows` and `createFlagMap` over the repeatable
`--variable name=value` strings: each string is split by `strings.Cut` at
the first `=` (no `=` aborts with `invalid variable format`) and the pair
is written into the flag values map, overwriting any existing binding.
-/

structure WorkflowConfig where
  AcrName : String
  AcrResourceGroupName : String
  AksClusterName : String
  BranchName : String
  BuildContextPath : String
  ChartPath : String
  ChartOverridePath : String
  ClusterResourceGroupName : String
  ContainerName : String
deriving Repr, DecidableEq

def SetFlagValuesToMap (config : WorkflowConfig) : List (String × String) :=
  let m : List (String × String) := []
  let m := if config.AcrName ≠ "" then setA m "AZURECONTAINERREGISTRY" config.AcrName else m
  let m := if config.AcrResourceGroupName ≠ "" then
    setA m "RESOURCEGROUP" config.AcrResourceGroupName else m
  let m := if config.AksClusterName ≠ "" then setA m "CLUSTERNAME" config.AksClusterName else m
  let m := if config.BranchName ≠ "" then setA m "BRANCHNAME" config.BranchName else m
  let m := if config.BuildContextPath ≠ "" then
    setA m "BUILDCONTEXTPATH" config.BuildContextPath else m
  let m := if config.ChartPath ≠ "" then setA m "CHARTPATH" config.ChartPath else m
  let m := if config.ChartOverridePath ≠ "" then
    setA m "CHARTOVERRIDEPATH" config.ChartOverridePath else m
  let m := if config.ClusterResourceGroupName ≠ "" then
    setA m "CLUSTERRESOURCEGROUP" config.ClusterResourceGroupName else m
  let m := if config.ContainerName ≠ "" then setA m "CONTAINERNAME" config.ContainerName else m
  m

/-- `strings.Cut(s, "=")` on the character list of `s`: splits at the
first `=`; `none` when there is no `=`. -/
def cutAtEq : List Char → Option (List Char × List Char)
  | [] => none
  | c :: cs =>
      if c = '=' then some ([], cs)
      else
        match cutAtEq cs with
        | none => none
        | some (before, after) => some (c :: before, after)

/-- The `for _, flagVar := range flagVariables` loop of
`generateWorkflows` / `createFlagMap`. -/
def applyFlagVariables : List String → List (String × String) →
    Except String (List (String × String))
  | [], flagValuesMap => Except.ok flagValuesMap
  | flagVar :: rest, flagValuesMap =>
      match cutAtEq flagVar.toList with
      | none => Except.error ("invalid variable format: " ++ flagVar)
      | some (flagVarName, flagVarValue) =>
          applyFlagVariables rest
            (setA flagValuesMap (String.mk flagVarName) (String.mk flagVarValue))

/-- The flag values map built by the `generate-workflow` command: the
values collected from the `WorkflowConfig` struct first, then the
`--variable name=value` overrides applied on top of them. -/
def generateWorkflowsFlagMap (workflowConfig : WorkflowConfig)
    (flagVariables : List String) : Except String (List (String × String)) :=
  applyFlagVariables flagVariables (SetFlagValuesToMap workflowConfig)

/-! ## Field validators (`pkg/validations`)

`validateAzureContainerRegistry` shells out to the Azure CLI; those
interactions are modelled from the spec ("A validator may itself have side
effects (e.g., ensuring the operator is authenticated to an external
control plane) before judging the value acceptable") by an `AzEnv` oracle:
`loggedIn` is `providers.IsLoggedInToAz()`, `logInOk`/`logInErr` the
outcome of `providers.LogInToAz()`, and `acrShowOk v` the success of
`az acr show --name v`.  The regex gate `^[a-z0-9]{5,50}$` is translated
directly. -/

structure AzEnv where
  loggedIn : Bool
  logInOk : Bool
  logInErr : String
  acrShowOk : String → Bool

/-- `regexp.MatchString` with the fixed pattern `^[a-z0-9]{5,50}$`. -/
def acrNameMatches (value : String) : Bool :=
  5 ≤ value.toList.length && value.toList.length ≤ 50 &&
    value.toList.all (fun c => ('a' ≤ c && c ≤ 'z') || ('0' ≤ c && c ≤ '9'))

def validateAzureContainerRegistry (env : AzEnv) (value : String) : Except String Unit :=
  if !env.loggedIn && !env.logInOk then
    Except.error ("failed to log in to Azure CLI: " ++ env.logInErr)
  else if !acrNameMatches value then
    Except.error ("registry name \x27" ++ value ++
      "\x27 does not meet Azure Container Registry naming requirements")
  else if !env.acrShowOk value then
    Except.error ("failed to find Azure Container Registry " ++ value)
  else
    Except.ok ()

def validateAzureClusterName (_value : String) : Except String Unit :=
  Except.ok ()

def validateAzureResourceGroup (_value : String) : Except String Unit :=
  Except.ok ()

def validateContainerName (_value : String) : Except String Unit :=
  Except.ok ()

def validateDir (_value : String) : Except String Unit :=
  Except.ok ()

def validateGitHubBranch (_value : String) : Except String Unit :=
  Except.ok ()

/-- `Validate` from `pkg/validations`: a `switch` on `ValidateType`; an
unmatched identifier falls through to the trailing `return nil`. -/
def Validate (env : AzEnv) (_name : String) (builderVar : BuilderVar) (value : String) :
    Except String Unit :=
  if builderVar.ValidateType = "azContainerRegistry" then
    validateAzureContainerRegistry env value
  else if builderVar.ValidateType = "azClusterName" then validateAzureClusterName value
  else if builderVar.ValidateType = "azResourceGroup" then validateAzureResourceGroup value
  else if builderVar.ValidateType = "containerName" then validateContainerName value
  else if builderVar.ValidateType = "dir" then validateDir value
  else if builderVar.ValidateType = "ghBranch" then validateGitHubBranch value
  else Except.ok ()

/-! ## Template materialization (`pkg/osutil`)

File contents are `List Char`.  `replaceAll s pat rep` is
`strings.ReplaceAll(s, pat, rep)`: scan left to right, replace each
leftmost non-overlapping occurrence of `pat`, never rescanning the
replacement text within the same call.  `replAux` carries the number of
characters still to silently skip after an emitted replacement, so the
recursion is structural in the scanned list.  (Go's behaviour for an empty
pattern — inserting `rep` at every position — is not modelled; every
pattern built by the materializer is `"\x7b\x7b" ++ name ++ "\x7d\x7d"`
and hence non-empty.) -/

def replAux (pat rep : List Char) : List Char → Nat → List Char
  | [], _ => []
  | _ :: cs, Nat.succ k => replAux pat rep cs k
  | c :: cs, 0 =>
      if pat.isPrefixOf (c :: cs) then rep ++ replAux pat rep cs (pat.length - 1)
      else c :: replAux pat rep cs 0

def replaceAll (s pat rep : List Char) : List Char :=
  if pat = [] then s else replAux pat rep s 0

/-- The marker `"\x7b\x7b" ++ name ++ "\x7d\x7d"` looked for by
`handleTemplateReplacement`. -/
def marker (name : List Char) : List Char :=
  '{' :: '{' :: (name ++ ['}', '}'])

/-- `handleTemplateReplacement` (file already read): for each binding of
`customInputs`, replace every occurrence of its marker by its value.  The
Go code ranges over a map in unspecified order; the embedding fixes the
association-list order. -/
def handleTemplateReplacement (fileString : List Char)
    (customInputs : List (List Char × List Char)) : List Char :=
  customInputs.foldl
    (fun fileString kv => replaceAll fileString (marker kv.1) kv.2)
    fileString

/-- `checkNameOverrides`: prepend the configured prefix, when one is set
for this file name, to compute the destination file name. -/
def checkNameOverrides (fileName : String) (config : Option DraftConfig) : String :=
  match config with
  | none => fileName
  | some c =>
      if c.GetNameOverride fileName ≠ "" then c.GetNameOverride fileName ++ fileName
      else fileName

/-- A template tree as seen through `fs.ReadDir`: the entry list of a
directory in listing order (`fs.ReadDir` returns entries sorted by file
name).  Paths are modelled as segment lists; the Go code joins segments
with `"/"`. -/
inductive FsEntry where
  | file (name : String) (content : List Char)
  | dir (name : String) (entries : List FsEntry)
deriving Repr

/-- `CopyDir` with a writer sink: the list of `(path, content)` pairs
handed to `templateWriter.WriteFile`, in call order.  `EnsureDirectory`
calls create no file pairs and the pure tree produces no I/O errors, so
the function is total. -/
def CopyDir (src dest : List String) (config : Option DraftConfig)
    (customInputs : List (List Char × List Char)) :
    List FsEntry → List (List String × List Char)
  | [] => []
  | FsEntry.file name content :: rest =>
      if name = "draft.yaml" then CopyDir src dest config customInputs rest
      else
        (dest ++ [checkNameOverrides name config],
          handleTemplateReplacement content customInputs) ::
          CopyDir src dest config customInputs rest
  | FsEntry.dir name entries :: rest =>
      if name = "draft.yaml" then CopyDir src dest config customInputs rest
      else
        CopyDir (src ++ [name]) (dest ++ [name]) config customInputs entries ++
          CopyDir src dest config customInputs rest

/-- The `for _, f := range files` loop of `CopyDirToFileMap`, threading
the `fileMap` accumulator.  Translated faithfully, including the
subdirectory branch `fileMap, err = CopyDirToFileMap(...)`, which assigns
the recursive call's freshly created map to `fileMap`, discarding the
entries accumulated so far in the current directory. -/
def copyDirToFileMapLoop (src dest : List String) (config : Option DraftConfig)
    (customInputs : List (List Char × List Char)) :
    List FsEntry → List (List String × List Char) → List (List String × List Char)
  | [], fileMap => fileMap
  | FsEntry.file name content :: rest, fileMap =>
      if name = "draft.yaml" then copyDirToFileMapLoop src dest config customInputs rest fileMap
      else
        copyDirToFileMapLoop src dest config customInputs rest
          (setA fileMap (dest ++ [checkNameOverrides name config])
            (handleTemplateReplacement content customInputs))
  | FsEntry.dir name entries :: rest, fileMap =>
      if name = "draft.yaml" then copyDirToFileMapLoop src dest config customInputs rest fileMap
      else
        copyDirToFileMapLoop src dest config customInputs rest
          (copyDirToFileMapLoop (src ++ [name]) (dest ++ [name]) config customInputs entries [])

/-- `CopyDirToFileMap`: starts from the empty `fileMap` and runs the loop
over the directory's entries. -/
def CopyDirToFileMap (src dest : List String) (config : Option DraftConfig)
    (customInputs : List (List Char × List Char)) (entries : List FsEntry) :
    List (List String × List Char) :=
  copyDirToFileMapLoop src dest config customInputs entries []

/-! ## Token view of a template file

To state what template substitution does, a template text is viewed as a
list of segments: literal character runs and `\x7b\x7bname\x7d\x7d`
markers.  `render` is the concrete text of such a view; `substSeg` is the
claim-side specification of substitution — a marker whose name is bound
in the resolved map becomes its value, a marker with no binding stays
verbatim, literal text is untouched.  The hygiene conditions (`braceFree`
names, literals and values; non-empty names) are the spec's §4.4
confluence invariant: resolved values must not contain or recreate
markers, otherwise Go's iterated `strings.ReplaceAll` over an
unordered map would be order-dependent. -/

inductive Seg where
  | lit (s : List Char)
  | mark (n : List Char)
deriving Repr, DecidableEq

def renderSeg : Seg → List Char
  | Seg.lit s => s
  | Seg.mark n => marker n

def render (segs : List Seg) : List Char :=
  segs.foldr (fun seg acc => renderSeg seg ++ acc) []

def substOne (markName value : List Char) : Seg → Seg
  | Seg.lit s => Seg.lit s
  | Seg.mark n => if n = markName then Seg.lit value else Seg.mark n

def substSeg (customInputs : List (List Char × List Char)) : Seg → Seg
  | Seg.lit s => Seg.lit s
  | Seg.mark n =>
      match lookupA customInputs n with
      | some v => Seg.lit v
      | none => Seg.mark n

def braceFree (s : List Char) : Prop := ∀ c ∈ s, c ≠ '{' ∧ c ≠ '}'

instance braceFree.decidable (s : List Char) : Decidable (braceFree s) := by
  unfold braceFree
  infer_instance

def SegWF : Seg → Prop
  | Seg.lit s => braceFree s
  | Seg.mark n => n ≠ [] ∧ braceFree n

/-! ## Further map and split lemmas -/

theorem getS_setA_self (m : List (String × String)) (k v : String) :
    getS (setA m k v) k = v := by
  simp [getS, lookupA_setA_self]

theorem lookupA_mem {κ α : Type} [DecidableEq κ] (m : List (κ × α)) (k : κ) (v : α)
    (h : lookupA m k = some v) : (k, v) ∈ m := by
  induction m with
  | nil => simp [lookupA] at h
  | cons kv rest ih =>
      obtain ⟨k₀, v₀⟩ := kv
      by_cases h₀ : k₀ = k
      · subst h₀
        simp [lookupA] at h
        simp [h]
      · simp [lookupA, h₀] at h
        exact List.mem_cons_of_mem _ (ih h)

theorem mem_setA {κ α : Type} [DecidableEq κ] (m : List (κ × α)) (k : κ) (v : α)
    (p : κ × α) (h : p ∈ setA m k v) : p ∈ m ∨ p = (k, v) := by
  induction m with
  | nil => simp [setA] at h; simp [h]
  | cons kv rest ih =>
      obtain ⟨k₀, v₀⟩ := kv
      by_cases h₀ : k₀ = k
      · subst h₀
        simp [setA] at h
        rcases h with h | h
        · right; simp [h]
        · left; exact List.mem_cons_of_mem _ h
      · simp [setA, h₀] at h
        rcases h with h | h
        · left; simp [h]
        · rcases ih h with h' | h'
          · left; exact List.mem_cons_of_mem _ h'
          · right; exact h'

theorem cutAtEq_eq_none_iff (cs : List Char) : cutAtEq cs = none ↔ '=' ∉ cs := by
  induction cs with
  | nil => simp [cutAtEq]
  | cons c rest ih =>
      by_cases hc : c = '='
      · subst hc; simp [cutAtEq]
      · constructor
        · intro h hmem
          rcases List.mem_cons.mp hmem with h' | h'
          · exact hc h'.symm
          · have hr : cutAtEq rest = none := by
              cases hr : cutAtEq rest with
              | none => rfl
              | some p => simp [cutAtEq, hc, hr] at h
            exact (ih.mp hr) h'
        · intro h
          have hr : cutAtEq rest = none := ih.mpr (fun hm => h (List.mem_cons_of_mem _ hm))
          simp [cutAtEq, hc, hr]

theorem cutAtEq_of_mem (cs : List Char) (h : '=' ∈ cs) :
    cutAtEq cs = some (cs.takeWhile (· ≠ '='), (cs.dropWhile (· ≠ '=')).tail) := by
  induction cs with
  | nil => simp at h
  | cons c rest ih =>
      by_cases hc : c = '='
      · subst hc
        simp [cutAtEq, List.takeWhile_cons, List.dropWhile_cons]
      · have hr : '=' ∈ rest := by
          rcases List.mem_cons.mp h with h' | h'
          · exact absurd h'.symm hc
          · exact h'
        simp [cutAtEq, hc, ih hr, List.takeWhile_cons, List.dropWhile_cons]

theorem cutAtEq_append (ks vs : List Char) (hk : '=' ∉ ks) :
    cutAtEq (ks ++ '=' :: vs) = some (ks, vs) := by
  induction ks with
  | nil => simp [cutAtEq]
  | cons c rest ih =>
      have hc : c ≠ '=' := fun h => hk (by simp [h])
      have hr : '=' ∉ rest := fun h => hk (List.mem_cons_of_mem _ h)
      simp [cutAtEq, hc, ih hr]

theorem stringMk_data (s : String) : String.mk s.data = s := by
  cases s
  rfl

/-! ## Claim C9: unknown validation rules are accepted -/

/-- C9: for every variable and value, `Validate` with a `ValidateType`
that matches none of the six known rule names (`azContainerRegistry`,
`azClusterName`, `azResourceGroup`, `containerName`, `dir`, `ghBranch`)
returns success, never an error: the `switch` falls through to the
trailing `return nil` (permissive unknown-rule policy). -/
theorem validate_unknown_rule_is_success (env : AzEnv) (name : String)
    (builderVar : BuilderVar) (value : String)
    (h : builderVar.ValidateType ∉
      (["azContainerRegistry", "azClusterName", "azResourceGroup",
        "containerName", "dir", "ghBranch"] : List String)) :
    Validate env name builderVar value = Except.ok () := by
  simp only [List.mem_cons, List.not_mem_nil, or_false, not_or] at h
  obtain ⟨h1, h2, h3, h4, h5, h6⟩ := h
  simp [Validate, h1, h2, h3, h4, h5, h6]

/-- Witness for C9 at the concrete unknown rule name `"customRule"`. -/
theorem validate_unknown_rule_is_success_witness :
    Validate ⟨true, true, "", fun _ => false⟩ "n" ⟨"n", "", "", "customRule"⟩ "v" =
      Except.ok () :=
  validate_unknown_rule_is_success ⟨true, true, "", fun _ => false⟩ "n"
    ⟨"n", "", "", "customRule"⟩ "v" (by decide)

/-! ## Claim C10: only the registry validator can fail -/

/-- C10: the validators selected by `azClusterName`, `azResourceGroup`,
`containerName`, `dir` and `ghBranch` return success unconditionally, so
`Validate` can only ever fail when `ValidateType` is
`azContainerRegistry`. -/
theorem validate_fails_only_for_acr :
    (∀ value, validateAzureClusterName value = Except.ok () ∧
      validateAzureResourceGroup value = Except.ok () ∧
      validateContainerName value = Except.ok () ∧
      validateDir value = Except.ok () ∧
      validateGitHubBranch value = Except.ok ()) ∧
    (∀ (env : AzEnv) (name : String) (builderVar : BuilderVar) (value : String),
      Validate env name builderVar value ≠ Except.ok () →
      builderVar.ValidateType = "azContainerRegistry") := by
  refine ⟨fun value => ⟨rfl, rfl, rfl, rfl, rfl⟩, ?_⟩
  intro env name builderVar value h
  by_contra hne
  apply h
  unfold Validate
  rw [if_neg hne]
  split_ifs <;> rfl

/-- Witness for C10: `validateDir` accepts `"x"`, and a concrete failing
`Validate` run (registry name passes the regex but `az acr show` fails)
has `ValidateType = "azContainerRegistry"`. -/
theorem validate_fails_only_for_acr_witness :
    validateDir "x" = Except.ok () ∧
    (⟨"n", "", "", "azContainerRegistry"⟩ : BuilderVar).ValidateType =
      "azContainerRegistry" :=
  ⟨(validate_fails_only_for_acr.1 "x").2.2.2.1,
    validate_fails_only_for_acr.2 ⟨true, true, "", fun _ => false⟩ "n"
      ⟨"n", "", "", "azContainerRegistry"⟩ "goodname1" (fun h => Except.noConfusion h)⟩

/-! ## Claim C8: `name=value` override parsing -/

/-- C8: processing the `--variable` strings aborts at the first string
without a `=`, with an `invalid variable format` error naming that string
(no map is returned, so no flag value from the list is applied); when
every string contains a `=`, each is split at its first `=` into a name
and a value, and the pair is entered into the flag values map. -/
theorem flag_variable_format :
    (∀ (pre : List String) (s : String) (post : List String)
        (m₀ : List (String × String)),
      (∀ t ∈ pre, '=' ∈ t.toList) → '=' ∉ s.toList →
      applyFlagVariables (pre ++ s :: post) m₀ =
        Except.error ("invalid variable format: " ++ s)) ∧
    (∀ (flagVariables : List String) (m₀ : List (String × String)),
      (∀ t ∈ flagVariables, '=' ∈ t.toList) →
      applyFlagVariables flagVariables m₀ =
        Except.ok (flagVariables.foldl
          (fun m t => setA m (String.mk (t.toList.takeWhile (· ≠ '=')))
            (String.mk ((t.toList.dropWhile (· ≠ '=')).tail))) m₀)) := by
  constructor
  · intro pre s post m₀ hpre hs
    induction pre generalizing m₀ with
    | nil =>
        have hnone : cutAtEq s.toList = none := (cutAtEq_eq_none_iff s.toList).mpr hs
        simp only [List.nil_append, applyFlagVariables]
        rw [hnone]
    | cons t pre' ih =>
        have ht : '=' ∈ t.toList := hpre t (List.mem_cons_self t pre')
        simp only [List.cons_append, applyFlagVariables]
        rw [cutAtEq_of_mem t.toList ht]
        exact ih _ (fun u hu => hpre u (List.mem_cons_of_mem _ hu))
  · intro flagVariables m₀ hall
    induction flagVariables generalizing m₀ with
    | nil => simp [applyFlagVariables]
    | cons t rest ih =>
        have ht : '=' ∈ t.toList := hall t (List.mem_cons_self t rest)
        simp only [applyFlagVariables, List.foldl_cons]
        rw [cutAtEq_of_mem t.toList ht]
        exact ih _ (fun u hu => hall u (List.mem_cons_of_mem _ hu))

/-- Witness for C8: a list containing `"noeq"` aborts with the
invalid-format error, and `["a=b"]` is parsed into the map binding
`("a", "b")`. -/
theorem flag_variable_format_witness :
    applyFlagVariables ["noeq"] [] = Except.error ("invalid variable format: " ++ "noeq") ∧
    applyFlagVariables ["a=b"] [] = Except.ok [("a", "b")] := by
  constructor
  · exact flag_variable_format.1 [] "noeq" [] [] (by simp) (by decide)
  · have h := flag_variable_format.2 ["a=b"] [] (by decide)
    simpa using h

/-! ## Claim C3: config-document value versus command-line override

The claim states that for a variable present both in the workflow config
struct and as a `--variable name=value` override, the config-document
value is the one present in the final flag values map.  The code does the
opposite: `generateWorkflows` first collects the config struct into the
flag values map and then runs the `--variable` loop, whose assignment
`flagValuesMap[flagVarName] = flagVarValue` overwrites the config-document
binding. -/

/-- Counterexample to C3: the config document supplies
`AcrName = "cfg"` (collected as `AZURECONTAINERREGISTRY`), the
command line supplies `AZURECONTAINERREGISTRY=cli`, and the final flag
values map binds `AZURECONTAINERREGISTRY` to `"cli"`, not to the
config-document value `"cfg"`. -/
theorem config_precedence_counterexample :
    generateWorkflowsFlagMap ⟨"cfg", "", "", "", "", "", "", "", ""⟩
        ["AZURECONTAINERREGISTRY=cli"] =
      Except.ok [("AZURECONTAINERREGISTRY", "cli")] ∧
    getS [("AZURECONTAINERREGISTRY", "cli")] "AZURECONTAINERREGISTRY" = "cli" ∧
    ("cli" : String) ≠ "cfg" := by
  refine ⟨rfl, rfl, by decide⟩

/-- C3 as amended: the command-line `name=value` override wins.  For any
workflow config and any override `k ++ "=" ++ v` (with no `=` in `k`), the
final flag values map is the config-collected map with `k` rebound to
`v`, and reading `k` from it yields the override value `v`. -/
theorem flag_override_wins (workflowConfig : WorkflowConfig) (k v : String)
    (hk : '=' ∉ k.toList) :
    generateWorkflowsFlagMap workflowConfig [k ++ "=" ++ v] =
      Except.ok (setA (SetFlagValuesToMap workflowConfig) k v) ∧
    getS (setA (SetFlagValuesToMap workflowConfig) k v) k = v := by
  constructor
  · have hsplit : (k ++ "=" ++ v).toList = k.toList ++ '=' :: v.toList := by
      show (k ++ "=" ++ v).data = k.data ++ '=' :: v.data
      rw [String.data_append, String.data_append]
      rw [show ("=" : String).data = ['='] from rfl]
      simp
    unfold generateWorkflowsFlagMap
    simp only [applyFlagVariables]
    rw [hsplit, cutAtEq_append k.toList v.toList hk]
    simp only [applyFlagVariables]
    rw [show String.mk k.toList = k from stringMk_data k,
      show String.mk v.toList = v from stringMk_data v]
  · exact getS_setA_self _ k v

/-- Witness for the amended C3 at a concrete config and override. -/
theorem flag_override_wins_witness :
    generateWorkflowsFlagMap ⟨"cfg2", "", "", "", "", "", "", "", ""⟩
        ["AZURECONTAINERREGISTRY" ++ "=" ++ "cli2"] =
      Except.ok (setA (SetFlagValuesToMap ⟨"cfg2", "", "", "", "", "", "", "", ""⟩)
        "AZURECONTAINERREGISTRY" "cli2") ∧
    getS (setA (SetFlagValuesToMap ⟨"cfg2", "", "", "", "", "", "", "", ""⟩)
        "AZURECONTAINERREGISTRY" "cli2") "AZURECONTAINERREGISTRY" = "cli2" :=
  flag_override_wins ⟨"cfg2", "", "", "", "", "", "", "", ""⟩
    "AZURECONTAINERREGISTRY" "cli2" (by decide)

/-! ## Claim C5: the default/reference chase -/

theorem chase_fold_no_match (n : String) (inputs : List (String × String))
    (ds : List BuilderVarDefault) (acc : String)
    (h : ∀ vd ∈ ds, vd.Name ≠ n) : ds.foldl (chaseStep n inputs) acc = acc := by
  induction ds generalizing acc with
  | nil => rfl
  | cons d rest ih =>
      rw [List.foldl_cons]
      have hd : d.Name ≠ n := h d (List.mem_cons_self d rest)
      rw [show chaseStep n inputs acc d = acc from by simp [chaseStep, hd]]
      exact ih acc (fun vd hvd => h vd (List.mem_cons_of_mem _ hvd))

/-- C5: for a variable with exactly one matching entry `vd` in
`variableDefaults`, `GetVariableDefaultValue` returns the entry's literal
`Value`, except that when `ReferenceVar` names a variable whose currently
resolved value is non-empty it returns that resolved value instead — the
chase is exactly the one hop through the `inputs` map (the returned value
is `inputs[vd.ReferenceVar]` itself, never chased further). -/
theorem default_value_spec (n : String) (ds : List BuilderVarDefault)
    (inputs : List (String × String)) (vd : BuilderVarDefault)
    (h : ds.filter (fun d => d.Name == n) = [vd]) :
    GetVariableDefaultValue n ds inputs =
      if vd.ReferenceVar ≠ "" ∧ getS inputs vd.ReferenceVar ≠ "" then
        getS inputs vd.ReferenceVar
      else vd.Value := by
  unfold GetVariableDefaultValue
  induction ds with
  | nil => simp at h
  | cons d rest ih =>
      by_cases hd : d.Name = n
      · rw [List.filter_cons_of_pos (by simp [hd])] at h
        have hdvd : d = vd := (List.cons_eq_cons.mp h).1
        have hrest : rest.filter (fun d => d.Name == n) = [] := (List.cons_eq_cons.mp h).2
        rw [List.foldl_cons]
        rw [show chaseStep n inputs "" d =
            (if vd.ReferenceVar ≠ "" ∧ getS inputs vd.ReferenceVar ≠ "" then
              getS inputs vd.ReferenceVar
            else vd.Value) from by subst hdvd; simp [chaseStep, hd]]
        exact chase_fold_no_match n inputs rest _
          (fun u hu => by
            have := List.filter_eq_nil_iff.mp hrest u hu
            simpa using this)
      · rw [List.filter_cons_of_neg (by simp [hd])] at h
        rw [List.foldl_cons,
          show chaseStep n inputs "" d = "" from by simp [chaseStep, hd]]
        exact ih h

/-- Witness for C5: the spec's reference-fallback scenario — `A` with
default `"x"`, `B` referencing `A` with no own default; with `A` resolved
to `"x"`, `B`'s computed default is `"x"`. -/
theorem default_value_spec_witness :
    GetVariableDefaultValue "B" [⟨"A", "x", "", false⟩, ⟨"B", "", "A", false⟩]
      [("A", "x")] = "x" := by
  rw [default_value_spec "B" [⟨"A", "x", "", false⟩, ⟨"B", "", "A", false⟩]
    [("A", "x")] ⟨"B", "", "A", false⟩ (by decide)]
  decide

/-! ## Claim C2: behaviour of the skip set

The claim states that a skipped variable never appears as a key of the
resolved map.  The main loop does skip it, but the final
default-substitution pass ranges over `config.VariableDefaults` and
re-inserts every name whose resolved value still reads as empty — the
skipped variable included. -/

/-- Main-loop invariant: a name in the skip set is never prompted by the
loop and is never inserted into the `inputs` map by the loop. -/
theorem runPromptsLoop_skip (cfg : DraftConfig) (skips : List String) (o : PromptOracle)
    (name : String) (hskip : skips.contains name = true) :
    ∀ (vars : List BuilderVar) (inputs : List (String × String)) (log : List String),
      lookupA inputs name = none → name ∉ log →
      name ∉ (runPromptsLoop cfg skips o vars inputs log).2 ∧
      ∀ m, (runPromptsLoop cfg skips o vars inputs log).1 = Except.ok m →
        lookupA m name = none := by
  intro vars
  induction vars with
  | nil =>
      intro inputs log hin hlog
      exact ⟨hlog, fun m hm => by simp [runPromptsLoop] at hm; rw [← hm]; exact hin⟩
  | cons v rest ih =>
      intro inputs log hin hlog
      by_cases h1 : skips.contains v.Name
      · have h1m : v.Name ∈ skips := by simpa using h1
        simpa [runPromptsLoop, h1m] using ih inputs log hin hlog
      · have h1m : v.Name ∉ skips := by simpa using h1
        have hne : v.Name ≠ name := fun he => h1 (he ▸ hskip)
        by_cases h2 : GetIsPromptDisabled v.Name cfg.VariableDefaults
        · by_cases h3 : GetVariableDefaultValue v.Name cfg.VariableDefaults inputs = ""
          · refine ⟨?_, ?_⟩
            · simpa [runPromptsLoop, h1m, h2, h3] using hlog
            · intro m hm
              simp [runPromptsLoop, h1m, h2, h3] at hm
          · have hin' : lookupA (setA inputs v.Name
                (GetVariableDefaultValue v.Name cfg.VariableDefaults inputs)) name = none := by
              rw [lookupA_setA_ne inputs v.Name name _ hne]; exact hin
            simpa [runPromptsLoop, h1m, h2, h3] using ih _ log hin' hlog
        · by_cases h4 : v.VarType = "bool"
          · cases hb : RunBoolPrompt v o with
            | error e =>
                refine ⟨?_, ?_⟩
                · have hlog' : name ∉ log ++ [v.Name] := by
                    simpa using ⟨hlog, fun he => hne he.symm⟩
                  simpa [runPromptsLoop, h1m, h2, h4, hb] using hlog'
                · intro m hm
                  simp [runPromptsLoop, h1m, h2, h4, hb] at hm
            | ok s =>
                have hin' : lookupA (setA inputs v.Name s) name = none := by
                  rw [lookupA_setA_ne inputs v.Name name s hne]; exact hin
                have hlog' : name ∉ log ++ [v.Name] := by
                  simpa using ⟨hlog, fun he => hne he.symm⟩
                simpa [runPromptsLoop, h1m, h2, h4, hb] using ih _ _ hin' hlog'
          · cases hb : RunDefaultableStringPrompt v
                (GetVariableDefaultValue v.Name cfg.VariableDefaults inputs) o with
            | error e =>
                refine ⟨?_, ?_⟩
                · have hlog' : name ∉ log ++ [v.Name] := by
                    simpa using ⟨hlog, fun he => hne he.symm⟩
                  simpa [runPromptsLoop, h1m, h2, h4, hb] using hlog'
                · intro m hm
                  simp [runPromptsLoop, h1m, h2, h4, hb] at hm
            | ok s =>
                have hin' : lookupA (setA inputs v.Name s) name = none := by
                  rw [lookupA_setA_ne inputs v.Name name s hne]; exact hin
                have hlog' : name ∉ log ++ [v.Name] := by
                  simpa using ⟨hlog, fun he => hne he.symm⟩
                simpa [runPromptsLoop, h1m, h2, h4, hb] using ih _ _ hin' hlog'

/-- The final substitution pass inserts exactly the names declared in
`variableDefaults` (beyond those already present). -/
theorem containsA_substituteDefaults (ds : List BuilderVarDefault)
    (m : List (String × String)) (name : String) :
    containsA (substituteDefaults ds m) name = true ↔
      containsA m name = true ∨ name ∈ ds.map BuilderVarDefault.Name := by
  induction ds generalizing m with
  | nil => simp [substituteDefaults]
  | cons vd ds ih =>
      have hstep : substituteDefaults (vd :: ds) m =
          substituteDefaults ds
            (if getS m vd.Name = "" then setA m vd.Name vd.Value else m) := by
        simp [substituteDefaults]
      rw [hstep, ih]
      by_cases hz : getS m vd.Name = ""
      · rw [if_pos hz, containsA_setA]
        simp only [List.map_cons, List.mem_cons, Bool.or_eq_true, decide_eq_true_eq]
        constructor
        · rintro (⟨h | h⟩ | h)
          · exact Or.inl h
          · exact Or.inr (Or.inl h.symm)
          · exact Or.inr (Or.inr h)
        · rintro (h | h | h)
          · exact Or.inl (Or.inl h)
          · exact Or.inl (Or.inr h.symm)
          · exact Or.inr h
      · rw [if_neg hz]
        have hvd : vd.Name = name → containsA m name = true :=
          fun he => containsA_of_getS_ne m name (he ▸ hz)
        simp only [List.map_cons, List.mem_cons]
        constructor
        · rintro (h | h)
          · exact Or.inl h
          · exact Or.inr (Or.inr h)
        · rintro (h | h | h)
          · exact Or.inl h
          · exact Or.inl (hvd h.symm)
          · exact Or.inr h

/-- Counterexample to C2 as stated: with declaration `A`, a declared
default `A = "x"`, and skip set `["A"]`, `RunPromptsFromConfigWithSkipsIO`
returns a map in which the skipped name `A` does appear (bound to its
declared default), because the final default-substitution pass re-inserts
it. -/
theorem skip_absolute_counterexample :
    RunPromptsFromConfigWithSkipsIO ⟨[⟨"A", "the A", "", ""⟩], [⟨"A", "x", "", false⟩], []⟩
        ["A"] ⟨fun _ => Except.ok "true", fun _ _ => Except.ok "inp"⟩ =
      Except.ok [("A", "x")] ∧
    containsA [(("A" : String), ("x" : String))] "A" = true :=
  ⟨rfl, rfl⟩

/-- C2 as amended: a variable in the skip set is never prompted and is
never resolved by the main loop, but the final default-substitution pass
still inserts an entry for every name declared in `VariableDefaults`
whose resolved value is empty; hence a skipped variable appears as a key
of the returned map exactly when it has a `VariableDefaults` entry. -/
theorem skip_never_prompted_amended (cfg : DraftConfig) (skips : List String)
    (o : PromptOracle) (name : String) (h : name ∈ skips) :
    name ∉ promptedVariables cfg skips o ∧
    ∀ m, RunPromptsFromConfigWithSkipsIO cfg skips o = Except.ok m →
      (containsA m name = true ↔ name ∈ cfg.VariableDefaults.map BuilderVarDefault.Name) := by
  have hc : skips.contains name = true := by
    simpa using h
  have main := runPromptsLoop_skip cfg skips o name hc cfg.Variables [] []
    (by simp [lookupA]) (by simp)
  refine ⟨main.1, ?_⟩
  intro m hm
  unfold RunPromptsFromConfigWithSkipsIO at hm
  cases hloop : runPromptsLoop cfg skips o cfg.Variables [] [] with
  | mk r log =>
      rw [hloop] at hm
      cases r with
      | error e => simp at hm
      | ok inputs =>
          simp at hm
          have hlook : lookupA inputs name = none := main.2 inputs (by rw [hloop])
          have hcontains : ¬ containsA inputs name = true := by
            simp [containsA, hlook]
          rw [← hm, containsA_substituteDefaults]
          constructor
          · rintro (h' | h')
            · exact absurd h' hcontains
            · exact h'
          · exact fun h' => Or.inr h'

/-- Witness for the amended C2 at the concrete configuration of the
counterexample: `A` is never prompted, and it appears in the returned map
because it has a `VariableDefaults` entry. -/
theorem skip_never_prompted_amended_witness :
    "A" ∉ promptedVariables ⟨[⟨"A", "the A", "", ""⟩], [⟨"A", "x", "", false⟩], []⟩
        ["A"] ⟨fun _ => Except.ok "true", fun _ _ => Except.ok "inp"⟩ ∧
    (containsA [(("A" : String), ("x" : String))] "A" = true ↔
      "A" ∈ ([⟨"A", "x", "", false⟩] : List BuilderVarDefault).map BuilderVarDefault.Name) :=
  ⟨(skip_never_prompted_amended ⟨[⟨"A", "the A", "", ""⟩], [⟨"A", "x", "", false⟩], []⟩
      ["A"] ⟨fun _ => Except.ok "true", fun _ _ => Except.ok "inp"⟩ "A" (by simp)).1,
    (skip_never_prompted_amended ⟨[⟨"A", "the A", "", ""⟩], [⟨"A", "x", "", false⟩], []⟩
      ["A"] ⟨fun _ => Except.ok "true", fun _ _ => Except.ok "inp"⟩ "A" (by simp)).2
      [("A", "x")] rfl⟩

/-! ## Claim C4: a non-interactive variable with no default is fatal -/

/-- When every entry of `variableDefaults` matching a name has an empty
`Value` and an empty `ReferenceVar`, the default/reference chase yields
`""` whatever is already resolved. -/
theorem chase_empty (n : String) (ds : List BuilderVarDefault)
    (inputs : List (String × String))
    (h : ∀ vd ∈ ds, vd.Name = n → vd.Value = "" ∧ vd.ReferenceVar = "") :
    GetVariableDefaultValue n ds inputs = "" := by
  unfold GetVariableDefaultValue
  induction ds with
  | nil => rfl
  | cons d rest ih =>
      rw [List.foldl_cons]
      have hstep : chaseStep n inputs "" d = "" := by
        by_cases hd : d.Name = n
        · obtain ⟨hv, hr⟩ := h d (List.mem_cons_self d rest) hd
          simp [chaseStep, hd, hv, hr]
        · simp [chaseStep, hd]
      rw [hstep]
      exact ih (fun vd hvd => h vd (List.mem_cons_of_mem _ hvd))

/-- Main-loop half of C4: with a never-failing prompt oracle, if the
variable list contains a non-skipped prompt-disabled variable whose
default chase can only yield `""`, the loop returns an error, and that
error is the `no default value was found` message of such a variable. -/
theorem runPromptsLoop_error_of_failing (cfg : DraftConfig) (skips : List String)
    (o : PromptOracle) (hO : OracleTotal o) :
    ∀ (vars : List BuilderVar) (inputs : List (String × String)) (log : List String),
      (∃ v ∈ vars, skips.contains v.Name = false ∧
        GetIsPromptDisabled v.Name cfg.VariableDefaults = true ∧
        ∀ vd ∈ cfg.VariableDefaults, vd.Name = v.Name →
          vd.Value = "" ∧ vd.ReferenceVar = "") →
      ∃ w ∈ vars, skips.contains w.Name = false ∧
        GetIsPromptDisabled w.Name cfg.VariableDefaults = true ∧
        (runPromptsLoop cfg skips o vars inputs log).1 =
          Except.error (noDefaultMsg w.Name) := by
  intro vars
  induction vars with
  | nil =>
      rintro inputs log ⟨v, hv, _⟩
      simp at hv
  | cons v₁ rest ih =>
      rintro inputs log ⟨v, hv, hcond⟩
      by_cases h1 : skips.contains v₁.Name
      · have h1m : v₁.Name ∈ skips := by simpa using h1
        have hvrest : v ∈ rest := by
          rcases List.mem_cons.mp hv with he | h'
          · rw [he] at hcond
            rw [hcond.1] at h1
            exact absurd h1 (by simp)
          · exact h'
        obtain ⟨w, hw, hws, hwd, hrun⟩ := ih inputs log ⟨v, hvrest, hcond⟩
        exact ⟨w, List.mem_cons_of_mem _ hw, hws, hwd, by
          simpa [runPromptsLoop, h1m] using hrun⟩
      · have h1m : v₁.Name ∉ skips := by simpa using h1
        by_cases h2 : GetIsPromptDisabled v₁.Name cfg.VariableDefaults
        · by_cases h3 : GetVariableDefaultValue v₁.Name cfg.VariableDefaults inputs = ""
          · exact ⟨v₁, List.mem_cons_self v₁ rest, by simpa using h1, h2, by
              simp [runPromptsLoop, h1m, h2, h3]⟩
          · have hvrest : v ∈ rest := by
              rcases List.mem_cons.mp hv with he | h'
              · exfalso
                apply h3
                rw [← he]
                exact chase_empty v.Name cfg.VariableDefaults inputs hcond.2.2
              · exact h'
            obtain ⟨w, hw, hws, hwd, hrun⟩ :=
              ih (setA inputs v₁.Name
                (GetVariableDefaultValue v₁.Name cfg.VariableDefaults inputs)) log
                ⟨v, hvrest, hcond⟩
            exact ⟨w, List.mem_cons_of_mem _ hw, hws, hwd, by
              simpa [runPromptsLoop, h1m, h2, h3] using hrun⟩
        · have hvrest : v ∈ rest := by
            rcases List.mem_cons.mp hv with he | h'
            · exfalso
              apply h2
              rw [← he]
              exact hcond.2.1
            · exact h'
          by_cases h4 : v₁.VarType = "bool"
          · obtain ⟨s, hs⟩ := hO.1 v₁
            obtain ⟨w, hw, hws, hwd, hrun⟩ :=
              ih (setA inputs v₁.Name s) (log ++ [v₁.Name]) ⟨v, hvrest, hcond⟩
            exact ⟨w, List.mem_cons_of_mem _ hw, hws, hwd, by
              simpa [runPromptsLoop, h1m, h2, h4, RunBoolPrompt, hs] using hrun⟩
          · obtain ⟨s, hs⟩ :=
              hO.2 v₁ (GetVariableDefaultValue v₁.Name cfg.VariableDefaults inputs)
            have hr : RunDefaultableStringPrompt v₁
                (GetVariableDefaultValue v₁.Name cfg.VariableDefaults inputs) o =
                Except.ok (if s = "" ∧
                    GetVariableDefaultValue v₁.Name cfg.VariableDefaults inputs ≠ "" then
                  GetVariableDefaultValue v₁.Name cfg.VariableDefaults inputs
                else s) := by
              simp [RunDefaultableStringPrompt, hs]
            obtain ⟨w, hw, hws, hwd, hrun⟩ :=
              ih (setA inputs v₁.Name (if s = "" ∧
                  GetVariableDefaultValue v₁.Name cfg.VariableDefaults inputs ≠ "" then
                GetVariableDefaultValue v₁.Name cfg.VariableDefaults inputs
              else s)) (log ++ [v₁.Name]) ⟨v, hvrest, hcond⟩
            exact ⟨w, List.mem_cons_of_mem _ hw, hws, hwd, by
              simpa [runPromptsLoop, h1m, h2, h4, hr] using hrun⟩

/-- C4: for every configuration containing a non-skipped variable with
`IsPromptDisabled = true` whose default/reference chase can only yield
`""` (no literal default and no reference), and every never-failing
prompt oracle, resolution fails as a whole: the function returns an error
(so a `nil` map, no resolved set and nothing to materialize), and the
error is the `no default value was found` message naming a non-skipped
prompt-disabled variable of the configuration — the first one the loop
reaches, so no later variable is processed. -/
theorem no_default_fatal (cfg : DraftConfig) (skips : List String) (o : PromptOracle)
    (hO : OracleTotal o) (v : BuilderVar) (hv : v ∈ cfg.Variables)
    (hskip : skips.contains v.Name = false)
    (hpd : GetIsPromptDisabled v.Name cfg.VariableDefaults = true)
    (hempty : ∀ vd ∈ cfg.VariableDefaults, vd.Name = v.Name →
      vd.Value = "" ∧ vd.ReferenceVar = "") :
    ∃ w ∈ cfg.Variables, skips.contains w.Name = false ∧
      GetIsPromptDisabled w.Name cfg.VariableDefaults = true ∧
      RunPromptsFromConfigWithSkipsIO cfg skips o =
        Except.error (noDefaultMsg w.Name) := by
  obtain ⟨w, hw, hws, hwd, hrun⟩ :=
    runPromptsLoop_error_of_failing cfg skips o hO cfg.Variables [] []
      ⟨v, hv, hskip, hpd, hempty⟩
  refine ⟨w, hw, hws, hwd, ?_⟩
  unfold RunPromptsFromConfigWithSkipsIO
  cases hloop : runPromptsLoop cfg skips o cfg.Variables [] [] with
  | mk r log =>
      rw [hloop] at hrun
      simp at hrun
      rw [hrun]

/-- Witness for C4: declaration `A` with `IsPromptDisabled = true`, no
default and no reference; resolution fails with the error naming `A`. -/
theorem no_default_fatal_witness :
    RunPromptsFromConfigWithSkipsIO ⟨[⟨"A", "the A", "", ""⟩], [⟨"A", "", "", true⟩], []⟩
        [] ⟨fun _ => Except.ok "t", fun _ _ => Except.ok "s"⟩ =
      Except.error (noDefaultMsg "A") := by
  obtain ⟨w, hw, _, _, hrun⟩ :=
    no_default_fatal ⟨[⟨"A", "the A", "", ""⟩], [⟨"A", "", "", true⟩], []⟩ []
      ⟨fun _ => Except.ok "t", fun _ _ => Except.ok "s"⟩
      ⟨fun _ => ⟨"t", rfl⟩, fun _ _ => ⟨"s", rfl⟩⟩
      ⟨"A", "the A", "", ""⟩ (by simp) (by decide) (by decide) (by decide)
  have hwA : w = ⟨"A", "the A", "", ""⟩ := by simpa using hw
  rw [hwA] at hrun
  exact hrun

/-! ## Claim C7: `draft.yaml` is never materialized -/

theorem checkNameOverrides_ne_reserved (name : String) (config : Option DraftConfig)
    (hname : name ≠ "draft.yaml")
    (hcfg : ∀ c, config = some c → ∀ kv ∈ c.NameOverrides, kv.2 ≠ "" →
      kv.2 ++ kv.1 ≠ "draft.yaml") :
    checkNameOverrides name config ≠ "draft.yaml" := by
  cases config with
  | none => simpa [checkNameOverrides] using hname
  | some c =>
      by_cases h : c.GetNameOverride name ≠ ""
      · rw [show checkNameOverrides name (some c) = c.GetNameOverride name ++ name from by
          simp [checkNameOverrides, h]]
        have hl : lookupA c.NameOverrides name = some (c.GetNameOverride name) := by
          unfold DraftConfig.GetNameOverride getS at h ⊢
          cases hlk : lookupA c.NameOverrides name with
          | none => rw [hlk] at h; simp at h
          | some p => simp
        exact hcfg c rfl (name, c.GetNameOverride name) (lookupA_mem _ _ _ hl) h
      · rw [show checkNameOverrides name (some c) = name from by simp [checkNameOverrides, h]]
        exact hname

theorem CopyDir_no_reserved :
    ∀ (src dest : List String) (config : Option DraftConfig)
      (customInputs : List (List Char × List Char)) (entries : List FsEntry),
      (∀ c, config = some c → ∀ kv ∈ c.NameOverrides, kv.2 ≠ "" →
        kv.2 ++ kv.1 ≠ "draft.yaml") →
      ∀ p ∈ CopyDir src dest config customInputs entries,
        ∀ fn, p.1.getLast? = some fn → fn ≠ "draft.yaml" := by
  intro src dest config customInputs entries
  induction src, dest, config, customInputs, entries using CopyDir.induct with
  | case1 src dest config customInputs =>
      intro _
      simp [CopyDir]
  | case2 src dest config customInputs content rest ih =>
      intro hcfg p hp fn hfn
      rw [show CopyDir src dest config customInputs
          (FsEntry.file "draft.yaml" content :: rest) =
          CopyDir src dest config customInputs rest from by simp [CopyDir]] at hp
      exact ih hcfg p hp fn hfn
  | case3 src dest config customInputs name content rest hn ih =>
      intro hcfg p hp fn hfn
      rw [show CopyDir src dest config customInputs (FsEntry.file name content :: rest) =
          (dest ++ [checkNameOverrides name config],
            handleTemplateReplacement content customInputs) ::
            CopyDir src dest config customInputs rest from by simp [CopyDir, hn]] at hp
      rcases List.mem_cons.mp hp with he | hp'
      · have : fn = checkNameOverrides name config := by
          rw [he] at hfn
          exact (by simpa using hfn : checkNameOverrides name config = fn).symm
        rw [this]
        exact checkNameOverrides_ne_reserved name config hn hcfg
      · exact ih hcfg p hp' fn hfn
  | case4 src dest config customInputs entries rest ih =>
      intro hcfg p hp fn hfn
      rw [show CopyDir src dest config customInputs
          (FsEntry.dir "draft.yaml" entries :: rest) =
          CopyDir src dest config customInputs rest from by simp [CopyDir]] at hp
      exact ih hcfg p hp fn hfn
  | case5 src dest config customInputs name entries rest hn ih1 ih2 =>
      intro hcfg p hp fn hfn
      rw [show CopyDir src dest config customInputs (FsEntry.dir name entries :: rest) =
          CopyDir (src ++ [name]) (dest ++ [name]) config customInputs entries ++
            CopyDir src dest config customInputs rest from by simp [CopyDir, hn]] at hp
      rcases List.mem_append.mp hp with hp' | hp'
      · exact ih1 hcfg p hp' fn hfn
      · exact ih2 hcfg p hp' fn hfn

theorem copyDirToFileMapLoop_no_reserved :
    ∀ (src dest : List String) (config : Option DraftConfig)
      (customInputs : List (List Char × List Char)) (entries : List FsEntry)
      (fileMap : List (List String × List Char)),
      (∀ c, config = some c → ∀ kv ∈ c.NameOverrides, kv.2 ≠ "" →
        kv.2 ++ kv.1 ≠ "draft.yaml") →
      (∀ p ∈ fileMap, ∀ fn, p.1.getLast? = some fn → fn ≠ "draft.yaml") →
      ∀ p ∈ copyDirToFileMapLoop src dest config customInputs entries fileMap,
        ∀ fn, p.1.getLast? = some fn → fn ≠ "draft.yaml" := by
  intro src dest config customInputs entries fileMap
  induction src, dest, config, customInputs, entries, fileMap
      using copyDirToFileMapLoop.induct with
  | case1 src dest config customInputs fileMap =>
      intro _ hbase p hp fn hfn
      exact hbase p (by simpa [copyDirToFileMapLoop] using hp) fn hfn
  | case2 src dest config customInputs content rest fileMap ih =>
      intro hcfg hbase p hp fn hfn
      rw [show copyDirToFileMapLoop src dest config customInputs
          (FsEntry.file "draft.yaml" content :: rest) fileMap =
          copyDirToFileMapLoop src dest config customInputs rest fileMap from by
        simp [copyDirToFileMapLoop]] at hp
      exact ih hcfg hbase p hp fn hfn
  | case3 src dest config customInputs name content rest fileMap hn ih =>
      intro hcfg hbase p hp fn hfn
      rw [show copyDirToFileMapLoop src dest config customInputs
          (FsEntry.file name content :: rest) fileMap =
          copyDirToFileMapLoop src dest config customInputs rest
            (setA fileMap (dest ++ [checkNameOverrides name config])
              (handleTemplateReplacement content customInputs)) from by
        simp [copyDirToFileMapLoop, hn]] at hp
      refine ih hcfg ?_ p hp fn hfn
      intro q hq gn hgn
      rcases mem_setA _ _ _ q hq with hq' | hq'
      · exact hbase q hq' gn hgn
      · have : gn = checkNameOverrides name config := by
          rw [hq'] at hgn
          exact (by simpa using hgn : checkNameOverrides name config = gn).symm
        rw [this]
        exact checkNameOverrides_ne_reserved name config hn hcfg
  | case4 src dest config customInputs entries rest fileMap ih =>
      intro hcfg hbase p hp fn hfn
      rw [show copyDirToFileMapLoop src dest config customInputs
          (FsEntry.dir "draft.yaml" entries :: rest) fileMap =
          copyDirToFileMapLoop src dest config customInputs rest fileMap from by
        simp [copyDirToFileMapLoop]] at hp
      exact ih hcfg hbase p hp fn hfn
  | case5 src dest config customInputs name entries rest fileMap hn ih1 ih2 =>
      intro hcfg hbase p hp fn hfn
      rw [show copyDirToFileMapLoop src dest config customInputs
          (FsEntry.dir name entries :: rest) fileMap =
          copyDirToFileMapLoop src dest config customInputs rest
            (copyDirToFileMapLoop (src ++ [name]) (dest ++ [name]) config customInputs
              entries []) from by
        simp [copyDirToFileMapLoop, hn]] at hp
      refine ih2 hcfg ?_ p hp fn hfn
      intro q hq gn hgn
      exact ih1 hcfg (by simp) q hq gn hgn

/-- C7: for every template tree (and any override configuration whose
rules do not themselves rename a file to `draft.yaml`), no file named
`draft.yaml` is materialized: neither `CopyDir` hands such a file to the
writer sink nor does `CopyDirToFileMap` include a path for it in the
returned file map — both loops skip every entry named `draft.yaml`. -/
theorem no_draft_yaml_materialized (src dest : List String) (config : Option DraftConfig)
    (customInputs : List (List Char × List Char)) (entries : List FsEntry)
    (hcfg : ∀ c, config = some c → ∀ kv ∈ c.NameOverrides, kv.2 ≠ "" →
      kv.2 ++ kv.1 ≠ "draft.yaml") :
    (∀ p ∈ CopyDir src dest config customInputs entries,
      ∀ fn, p.1.getLast? = some fn → fn ≠ "draft.yaml") ∧
    (∀ p ∈ CopyDirToFileMap src dest config customInputs entries,
      ∀ fn, p.1.getLast? = some fn → fn ≠ "draft.yaml") :=
  ⟨CopyDir_no_reserved src dest config customInputs entries hcfg,
    copyDirToFileMapLoop_no_reserved src dest config customInputs entries [] hcfg
      (by simp)⟩

/-- Witness for C7 at a concrete tree containing a `draft.yaml` file: the
one write produced is for `a`, whose destination file name differs from
`draft.yaml`. -/
theorem no_draft_yaml_materialized_witness :
    CopyDir [] ["d"] none [] [FsEntry.file "a" ['x'], FsEntry.file "draft.yaml" ['m']] =
      [(["d", "a"], ['x'])] ∧
    ("a" : String) ≠ "draft.yaml" := by
  constructor
  · simp [CopyDir, checkNameOverrides, handleTemplateReplacement]
  · exact (no_draft_yaml_materialized [] ["d"] none []
      [FsEntry.file "a" ['x'], FsEntry.file "draft.yaml" ['m']]
      (by intro c hc; simp at hc)).1 (["d", "a"], ['x'])
      (by simp [CopyDir, checkNameOverrides, handleTemplateReplacement]) "a" (by simp)

/-! ## Claim C1: dry-run equivalence of the two materialization paths

The recording path loses files: in `CopyDirToFileMap` the subdirectory
branch reassigns `fileMap` to the recursive call's result, so entries
recorded before a subdirectory of the same directory are discarded, while
`CopyDir` writes them through the sink.  `fs.ReadDir` returns entries
sorted by name, so a file sorted before a sibling subdirectory (here
`a.txt` before `sub`) exhibits the divergence. -/

/-- C1 failing input: the tree `{ a.txt, sub/b.txt }`.  `CopyDir` writes
both files; `CopyDirToFileMap` returns a map containing only
`sub/b.txt` — the pair for `a.txt` is produced by the writer path and
missing from the recording path, refuting dry-run equivalence. -/
theorem dry_run_divergence :
    CopyDir ["t"] ["d"] none []
        [FsEntry.file "a.txt" ['A'], FsEntry.dir "sub" [FsEntry.file "b.txt" ['B']]] =
      [(["d", "a.txt"], ['A']), (["d", "sub", "b.txt"], ['B'])] ∧
    CopyDirToFileMap ["t"] ["d"] none []
        [FsEntry.file "a.txt" ['A'], FsEntry.dir "sub" [FsEntry.file "b.txt" ['B']]] =
      [(["d", "sub", "b.txt"], ['B'])] ∧
    (["d", "a.txt"], ['A']) ∈ CopyDir ["t"] ["d"] none []
        [FsEntry.file "a.txt" ['A'], FsEntry.dir "sub" [FsEntry.file "b.txt" ['B']]] ∧
    (["d", "a.txt"], ['A']) ∉ CopyDirToFileMap ["t"] ["d"] none []
        [FsEntry.file "a.txt" ['A'], FsEntry.dir "sub" [FsEntry.file "b.txt" ['B']]] := by
  refine ⟨?_, ?_, ?_, ?_⟩
  · simp [CopyDir, checkNameOverrides, handleTemplateReplacement]
  · simp [CopyDirToFileMap, copyDirToFileMapLoop, checkNameOverrides,
      handleTemplateReplacement, setA]
  · simp [CopyDir, checkNameOverrides, handleTemplateReplacement]
  · simp [CopyDirToFileMap, copyDirToFileMapLoop, checkNameOverrides,
      handleTemplateReplacement, setA]

/-! ## Claim C6: template substitution -/

theorem isPrefixOf_eq_iff (l₁ l₂ : List Char) : l₁.isPrefixOf l₂ ↔ l₁ <+: l₂ :=
  List.isPrefixOf_iff_prefix

theorem replAux_skip (pat rep : List Char) :
    ∀ (xs t : List Char), replAux pat rep (xs ++ t) xs.length = replAux pat rep t 0 := by
  intro xs
  induction xs with
  | nil => intro t; rfl
  | cons c xs' ih => intro t; exact ih t

theorem replAux_cons_ne (pat rep : List Char) (c : Char) (cs : List Char)
    (h : ¬ pat.isPrefixOf (c :: cs)) :
    replAux pat rep (c :: cs) 0 = c :: replAux pat rep cs 0 := by
  simp [replAux, h]

theorem replAux_append_pat (pat rep t : List Char) (hne : pat ≠ []) :
    replAux pat rep (pat ++ t) 0 = rep ++ replAux pat rep t 0 := by
  obtain ⟨p, ps, rfl⟩ : ∃ p ps, pat = p :: ps := by
    cases pat with
    | nil => exact absurd rfl hne
    | cons p ps => exact ⟨p, ps, rfl⟩
  have hpre : (p :: ps).isPrefixOf ((p :: ps) ++ t) :=
    (isPrefixOf_eq_iff _ _).mpr (List.prefix_append _ _)
  rw [show (p :: ps) ++ t = p :: (ps ++ t) from rfl]
  rw [show replAux (p :: ps) rep (p :: (ps ++ t)) 0 =
      rep ++ replAux (p :: ps) rep (ps ++ t) ((p :: ps).length - 1) from by
    simp [replAux, hpre]]
  rw [show (p :: ps).length - 1 = ps.length from by simp]
  rw [replAux_skip (p :: ps) rep ps t]

theorem replAux_append_braceFree (p' rep : List Char) :
    ∀ (s t : List Char), braceFree s →
      replAux ('{' :: p') rep (s ++ t) 0 = s ++ replAux ('{' :: p') rep t 0 := by
  intro s
  induction s with
  | nil => intro t _; rfl
  | cons c s' ih =>
      intro t hb
      have hc : c ≠ '{' := (hb c (List.mem_cons_self c s')).1
      have hpre : ¬ ('{' :: p').isPrefixOf (c :: (s' ++ t)) := by
        intro h
        simp [List.isPrefixOf] at h
        exact hc h.1.symm
      rw [List.cons_append, replAux_cons_ne _ _ _ _ hpre,
        ih t (fun x hx => hb x (List.mem_cons_of_mem _ hx))]
      rfl

/-- The heart of C6's pass-through property: a marker with a different
(non-empty, brace-free) name is never an occurrence of the pattern
marker, whatever text follows. -/
theorem markerCore_not_prefix (n n₀ t : List Char) (_hn : n ≠ []) (hbn : braceFree n)
    (hbn₀ : braceFree n₀) (hne : n ≠ n₀) :
    ¬ (n₀ ++ ['}', '}']) <+: (n ++ (['}', '}'] ++ t)) := by
  intro h'
  have hW : n <+: n ++ (['}', '}'] ++ t) := List.prefix_append _ _
  rcases List.prefix_or_prefix_of_prefix h' hW with h1 | h1
  · have hmem : ('}' : Char) ∈ n := h1.subset (by simp)
    exact (hbn '}' hmem).2 rfl
  · have hn₀W : n₀ <+: n₀ ++ ['}', '}'] := List.prefix_append _ _
    rcases List.prefix_or_prefix_of_prefix h1 hn₀W with h2 | h2
    · obtain ⟨d, hd⟩ := h2
      have hdne : d ≠ [] := by
        intro h0
        rw [h0, List.append_nil] at hd
        exact hne hd
      rw [← hd, List.append_assoc] at h'
      have h'' : d ++ ['}', '}'] <+: ['}', '}'] ++ t :=
        (List.prefix_append_right_inj n).mp h'
      obtain ⟨c, d', rfl⟩ : ∃ c d', d = c :: d' := by
        cases d with
        | nil => exact absurd rfl hdne
        | cons c d' => exact ⟨c, d', rfl⟩
      have hc : c = '}' := (List.cons_prefix_cons.mp h'').1
      have hcn₀ : c ∈ n₀ := by rw [← hd]; simp
      exact (hbn₀ c hcn₀).2 hc
    · obtain ⟨d, hd⟩ := h2
      have hdne : d ≠ [] := by
        intro h0
        rw [h0, List.append_nil] at hd
        exact hne hd.symm
      rw [← hd, List.append_assoc] at h'
      have h'' : ['}', '}'] <+: d ++ (['}', '}'] ++ t) :=
        (List.prefix_append_right_inj n₀).mp h'
      obtain ⟨c, d', rfl⟩ : ∃ c d', d = c :: d' := by
        cases d with
        | nil => exact absurd rfl hdne
        | cons c d' => exact ⟨c, d', rfl⟩
      have hc : ('}' : Char) = c := (List.cons_prefix_cons.mp h'').1
      have hcn : c ∈ n := by rw [← hd]; simp
      exact (hbn c hcn).2 hc.symm

/-- Scanning over a whole marker of a different name leaves it verbatim
and continues after it. -/
theorem replAux_marker_skip (n₀ v₀ n t : List Char) (hn : n ≠ []) (hbn : braceFree n)
    (hbn₀ : braceFree n₀) (hne : n ≠ n₀) :
    replAux (marker n₀) v₀ (marker n ++ t) 0 =
      marker n ++ replAux (marker n₀) v₀ t 0 := by
  obtain ⟨c, n', rfl⟩ : ∃ c n', n = c :: n' := by
    cases n with
    | nil => exact absurd rfl hn
    | cons c n' => exact ⟨c, n', rfl⟩
  have hc : c ≠ '{' := (hbn c (List.mem_cons_self c n')).1
  have hpre0 : ¬ (marker n₀).isPrefixOf (marker (c :: n') ++ t) := by
    intro h
    rw [isPrefixOf_eq_iff] at h
    unfold marker at h
    rw [show ('{' :: '{' :: ((c :: n') ++ ['}', '}'])) ++ t =
        '{' :: '{' :: (((c :: n') ++ ['}', '}']) ++ t) from rfl] at h
    obtain ⟨-, h2⟩ := List.cons_prefix_cons.mp h
    obtain ⟨-, h3⟩ := List.cons_prefix_cons.mp h2
    rw [List.append_assoc] at h3
    exact markerCore_not_prefix (c :: n') n₀ t hn hbn hbn₀ hne h3
  have heq0 : marker (c :: n') ++ t =
      '{' :: ('{' :: (((c :: n') ++ ['}', '}']) ++ t)) := by
    simp [marker]
  rw [heq0]
  rw [replAux_cons_ne _ _ _ _ (by rw [← heq0]; exact hpre0)]
  have hpre1 : ¬ (marker n₀).isPrefixOf ('{' :: (((c :: n') ++ ['}', '}']) ++ t)) := by
    intro h
    simp [marker, List.isPrefixOf] at h
    exact hc h.1.symm
  rw [replAux_cons_ne _ _ _ _ hpre1]
  rw [show ((c :: n') ++ ['}', '}']) ++ t = (c :: n') ++ (['}', '}'] ++ t) from
    List.append_assoc _ _ _]
  rw [show replAux (marker n₀) v₀ ((c :: n') ++ (['}', '}'] ++ t)) 0 =
      (c :: n') ++ replAux (marker n₀) v₀ (['}', '}'] ++ t) 0 from
    replAux_append_braceFree ('{' :: (n₀ ++ ['}', '}'])) v₀ (c :: n') (['}', '}'] ++ t) hbn]
  have hpre2 : ¬ (marker n₀).isPrefixOf ('}' :: ('}' :: t)) := by
    intro h
    simp [marker, List.isPrefixOf] at h
  rw [show (['}', '}'] ++ t : List Char) = '}' :: ('}' :: t) from rfl]
  rw [replAux_cons_ne _ _ _ _ hpre2]
  have hpre3 : ¬ (marker n₀).isPrefixOf ('}' :: t) := by
    intro h
    simp [marker, List.isPrefixOf] at h
  rw [replAux_cons_ne _ _ _ _ hpre3]
  simp [marker]

/-- Replacing one resolved variable in a rendered template: the marker
occurrences of its name become the value, everything else is untouched. -/
theorem replaceAll_render (n₀ v₀ : List Char) (hbn₀ : braceFree n₀) :
    ∀ (segs : List Seg), (∀ seg ∈ segs, SegWF seg) →
      replaceAll (render segs) (marker n₀) v₀ = render (segs.map (substOne n₀ v₀)) := by
  have hpat : marker n₀ ≠ [] := by simp [marker]
  intro segs
  induction segs with
  | nil =>
      intro _
      simp [replaceAll, hpat, render, replAux]
  | cons seg rest ih =>
      intro hwf
      have hwfseg : SegWF seg := hwf seg (List.mem_cons_self seg rest)
      have hwfrest : ∀ s ∈ rest, SegWF s := fun s hs => hwf s (List.mem_cons_of_mem _ hs)
      have hrest := ih hwfrest
      rw [show render (seg :: rest) = renderSeg seg ++ render rest from rfl]
      rw [show (seg :: rest).map (substOne n₀ v₀) =
          substOne n₀ v₀ seg :: rest.map (substOne n₀ v₀) from rfl]
      rw [show render (substOne n₀ v₀ seg :: rest.map (substOne n₀ v₀)) =
          renderSeg (substOne n₀ v₀ seg) ++ render (rest.map (substOne n₀ v₀)) from rfl]
      unfold replaceAll at hrest ⊢
      rw [if_neg (by simp [marker])] at hrest ⊢
      cases seg with
      | lit s =>
          have hb : braceFree s := hwfseg
          rw [show renderSeg (Seg.lit s) = s from rfl,
            show renderSeg (substOne n₀ v₀ (Seg.lit s)) = s from rfl]
          rw [show marker n₀ = '{' :: ('{' :: (n₀ ++ ['}', '}'])) from rfl]
          rw [replAux_append_braceFree ('{' :: (n₀ ++ ['}', '}'])) v₀ s (render rest) hb]
          rw [show ('{' : Char) :: ('{' :: (n₀ ++ ['}', '}'])) = marker n₀ from rfl]
          rw [hrest]
      | mark n =>
          by_cases hne : n = n₀
          · subst hne
            rw [show renderSeg (Seg.mark n) = marker n from rfl]
            rw [replAux_append_pat (marker n) v₀ (render rest) hpat, hrest]
            simp [substOne, renderSeg]
          · obtain ⟨hn, hbn⟩ := hwfseg
            rw [show renderSeg (Seg.mark n) = marker n from rfl]
            rw [replAux_marker_skip n₀ v₀ n (render rest) hn hbn hbn₀ hne, hrest]
            simp [substOne, hne, renderSeg]

theorem substOne_substSeg (n₀ v₀ : List Char) (rest : List (List Char × List Char))
    (seg : Seg) :
    substSeg rest (substOne n₀ v₀ seg) = substSeg ((n₀, v₀) :: rest) seg := by
  cases seg with
  | lit s => rfl
  | mark n =>
      by_cases hne : n = n₀
      · subst hne
        simp [substOne, substSeg, lookupA]
      · have hne' : n₀ ≠ n := fun h => hne h.symm
        simp [substOne, substSeg, lookupA, hne, hne']

/-- C6: template substitution.  For a template file whose text is the
rendering of a segment list (literal runs and markers, hygienic: names
non-empty and brace-free, literals and values brace-free),
`handleTemplateReplacement` replaces every occurrence of each marker
whose name is bound in the resolved map by that name's value, leaves
every marker whose name is not bound verbatim, and leaves all literal
text unchanged: the result is exactly the rendering of the
segment-wise substituted template. -/
theorem handleTemplateReplacement_spec :
    ∀ (customInputs : List (List Char × List Char)) (segs : List Seg),
      (∀ seg ∈ segs, SegWF seg) →
      (∀ kv ∈ customInputs, braceFree kv.1 ∧ braceFree kv.2) →
      handleTemplateReplacement (render segs) customInputs =
        render (segs.map (substSeg customInputs)) := by
  intro customInputs
  induction customInputs with
  | nil =>
      intro segs hwf _
      have hmap : segs.map (substSeg []) = segs := by
        have h1 : ∀ seg, substSeg [] seg = seg := by
          intro seg
          cases seg with
          | lit s => rfl
          | mark n => simp [substSeg, lookupA]
        calc segs.map (substSeg []) = segs.map id :=
              List.map_congr_left (fun seg _ => h1 seg)
          _ = segs := List.map_id segs
      rw [hmap]
      rfl
  | cons kv rest ih =>
      intro segs hwf hins
      obtain ⟨n₀, v₀⟩ := kv
      have hb₀ : braceFree n₀ ∧ braceFree v₀ :=
        hins (n₀, v₀) (List.mem_cons_self _ rest)
      have hstep : handleTemplateReplacement (render segs) ((n₀, v₀) :: rest) =
          handleTemplateReplacement (replaceAll (render segs) (marker n₀) v₀) rest := by
        simp [handleTemplateReplacement]
      rw [hstep, replaceAll_render n₀ v₀ hb₀.1 segs hwf]
      have hwf' : ∀ seg ∈ segs.map (substOne n₀ v₀), SegWF seg := by
        intro seg hseg
        obtain ⟨seg₀, hseg₀, rfl⟩ := List.mem_map.mp hseg
        cases seg₀ with
        | lit s => exact hwf (Seg.lit s) hseg₀
        | mark n =>
            by_cases hne : n = n₀
            · subst hne
              simpa [substOne, SegWF] using hb₀.2
            · simpa [substOne, hne] using hwf (Seg.mark n) hseg₀
      rw [ih (segs.map (substOne n₀ v₀)) hwf'
        (fun kv hkv => hins kv (List.mem_cons_of_mem _ hkv))]
      rw [List.map_map]
      congr 1
      apply List.map_congr_left
      intro seg _
      exact substOne_substSeg n₀ v₀ rest seg

/-- Witness for C6: a file consisting of the marker of `FOO`, a resolved
map binding `FOO` to `bar`; the materialized output is exactly `bar` —
it contains `bar` and no remaining marker. -/
theorem handleTemplateReplacement_spec_witness :
    handleTemplateReplacement ("\x7b\x7bFOO\x7d\x7d".toList)
      [("FOO".toList, "bar".toList)] = "bar".toList := by
  have h := handleTemplateReplacement_spec [("FOO".toList, "bar".toList)]
    [Seg.mark "FOO".toList]
    (by
      intro seg hseg
      simp at hseg
      subst hseg
      exact ⟨by decide, by decide⟩)
    (by
      intro kv hkv
      simp at hkv
      subst hkv
      exact ⟨by decide, by decide⟩)
  rw [show ("\x7b\x7bFOO\x7d\x7d".toList : List Char) =
      render [Seg.mark "FOO".toList] from by decide]
  rw [h]
  decide

end Draft
